import Mathlib

/-!
Verification of the NOC-data seeding pipeline's core: the batch executor
(`src/utils/batch-processor.js`), the resume calculator
(`src/utils/resume-calculator.js`), the retry/error-classification policy
(`src/utils/database.js`), and the per-record processing functions of the
entity seeders (`src/seeders/*.js`).

The JavaScript is embedded shallowly: persistence and file-system
collaborators become explicit function/`Except` parameters, a processing
function that may throw becomes `α → Except Unit ProcResult`, and the
executor's bookkeeping becomes pure list recursion.  Concurrency in the
original is promise-based with sequential iteration inside each batch and
aggregation after `Promise.all`; since the aggregated counters and the
multiset of processed records are independent of the interleaving, batches
are modelled in their submission order.
-/

namespace NocSeed

/-! ## Definitions -/

/-- Outcome values a seeder's processing function can return
(`'created' | 'skipped' | 'error'` in the JS). -/
inductive ProcResult
  | created
  | skipped
  | error
deriving DecidableEq, Repr

/-- A processing function: it either returns a `ProcResult` or throws
(`Except.error`), exactly the two behaviours the executor distinguishes. -/
abbrev Processor (α : Type) : Type := α → Except Unit ProcResult

/-- The `{created, skipped}` pair the executor accumulates and returns. -/
structure Tally where
  created : Nat
  skipped : Nat
deriving DecidableEq, Repr

instance : Add Tally := ⟨fun a b => ⟨a.created + b.created, a.skipped + b.skipped⟩⟩

/-- The contribution of one returned `ProcResult` to the per-batch counters:
`'created'` increments `batchCreated`, `'skipped'` increments `batchSkipped`,
`'error'` increments neither (`batch-processor.js` lines 65–69). -/
def oneTally : ProcResult → Tally
  | .created => ⟨1, 0⟩
  | .skipped => ⟨0, 1⟩
  | .error => ⟨0, 0⟩

/-- Result of the `try` loop over one batch: the records presented to the
processor (in order), the counters accumulated, and whether an exception
escaped the loop. -/
structure TryRun (α : Type) where
  presented : List α
  tally : Tally
  threw : Bool

/-- The `try` block of one batch (`batch-processor.js` lines 61–90):
records are processed sequentially in order; a throw from the processor
aborts the loop at that record (the counters gathered so far are kept). -/
def tryLoop (proc : Processor α) : List α → TryRun α
  | [] => ⟨[], ⟨0, 0⟩, false⟩
  | x :: xs =>
    match proc x with
    | .error _ => ⟨[x], ⟨0, 0⟩, true⟩
    | .ok r =>
      let rest := tryLoop proc xs
      ⟨x :: rest.presented, oneTally r + rest.tally, rest.threw⟩

/-- The `catch` fallback (`batch-processor.js` lines 96–115): every record
of the batch is re-attempted individually; a per-record throw counts as
`skipped`.  Returns the records presented and the counters added on top of
the `try` loop's counters (the JS does not reset `batchCreated`/`batchSkipped`
before the fallback). -/
def fallbackLoop (proc : Processor α) : List α → List α × Tally
  | [] => ([], ⟨0, 0⟩)
  | x :: xs =>
    let t : Tally :=
      match proc x with
      | .ok r => oneTally r
      | .error _ => ⟨0, 1⟩
    let rest := fallbackLoop proc xs
    (x :: rest.1, t + rest.2)

/-- One batch promise (`batch-processor.js` lines 57–119): run the `try`
loop; if it threw, run the fallback over the whole batch and add its
counters.  Returns the full presentation trace and the batch's counters. -/
def processBatch (proc : Processor α) (batch : List α) : List α × Tally :=
  let t := tryLoop proc batch
  if t.threw then
    let f := fallbackLoop proc batch
    (t.presented ++ f.1, t.tally + f.2)
  else
    (t.presented, t.tally)

/-- `slice`-based chunking: `for (let j = 0; j < l.length; j += k)` pushing
`l.slice(j, j + k)`.  The `k = 0` branch guards the degenerate loop the JS
would not terminate on; all call sites use positive sizes. -/
def chunkList (k : Nat) (l : List α) : List (List α) :=
  if l.isEmpty then []
  else if k = 0 then [l]
  else l.take k :: chunkList k (l.drop k)
termination_by l.length
decreasing_by
  simp only [List.length_drop]
  rename_i h hk
  have hl : l ≠ [] := by simpa [List.isEmpty_iff] using h
  have : 0 < l.length := List.length_pos.mpr hl
  omega

/-- `processInParallelBatches` (`batch-processor.js` lines 12–157):
drop the skip offset, cut the remainder into mega-batches of
`batchSize * PARALLEL_BATCHES`, cut each mega-batch into batches of
`batchSize`, run each batch, and accumulate every batch result into the
returned `{created, skipped}`.  The presentation trace concatenates the
per-batch traces in submission order. -/
def processInParallelBatches (data : List α) (batchSize : Nat)
    (proc : Processor α) (parallelBatches : Nat) (skipCount : Nat) :
    List α × Tally :=
  let actualData := data.drop skipCount
  let megaBatches := chunkList (batchSize * parallelBatches) actualData
  let batchRuns :=
    (megaBatches.map (fun mega => (chunkList batchSize mega).map (processBatch proc))).flatten
  ((batchRuns.map Prod.fst).flatten,
   ⟨(batchRuns.map (fun r => r.2.created)).sum,
    (batchRuns.map (fun r => r.2.skipped)).sum⟩)

/-- Number of records of `l` on which the processor returns outcome `r`. -/
def countResult (proc : Processor α) (r : ProcResult) (l : List α) : Nat :=
  l.countP fun x =>
    match proc x with
    | .ok r' => r' == r
    | .error _ => false

/-- A processor that succeeds on record `0` and throws on every other
record, exercising the executor's catch/fallback path. -/
def procThrowOn1 : Processor Nat := fun n =>
  if n = 0 then .ok .created else .error ()

/-- A processor that always returns the `'error'` outcome. -/
def procAlwaysError : Processor Nat := fun _ => .ok .error

/-- A processor returning `skipped` on record `2` and `created` elsewhere. -/
def procSkipOn2 : Processor Nat := fun n =>
  if n = 2 then .ok .skipped else .ok .created

/-! ### Resume calculator (`src/utils/resume-calculator.js`) -/

/-- The seven tables whose rows `getExistingRecordCounts` counts. -/
inductive Entity
  | programAreas
  | programs
  | nocUnitGroups
  | nocSections
  | economicRegions
  | outlooks
  | programNocLinks
deriving DecidableEq, Repr

/-- Current persisted row counts per table. -/
structure RecordCounts where
  programAreas : Nat
  programs : Nat
  nocUnitGroups : Nat
  nocSections : Nat
  economicRegions : Nat
  outlooks : Nat
  programNocLinks : Nat
deriving DecidableEq, Repr

/-- The `prisma.<model>.count()` collaborators; `Except.error` models a
count query that rejects. -/
structure CountQueries where
  programAreas : Except Unit Nat
  programs : Except Unit Nat
  nocUnitGroups : Except Unit Nat
  nocSections : Except Unit Nat
  economicRegions : Except Unit Nat
  outlooks : Except Unit Nat
  programNocLinks : Except Unit Nat

/-- One `try { counts.x = await prisma.x.count() } catch { counts.x = 0 }`
block: the count on success, `0` on a failed query. -/
def countOrZero : Except Unit Nat → Nat
  | .ok n => n
  | .error _ => 0

/-- `getExistingRecordCounts` (`resume-calculator.js` lines 74–140): each
of the seven counts is queried in its own try/catch; a failure logs a
warning and defaults that entity's count to 0. -/
def getExistingRecordCounts (q : CountQueries) : RecordCounts :=
  ⟨countOrZero q.programAreas, countOrZero q.programs, countOrZero q.nocUnitGroups,
   countOrZero q.nocSections, countOrZero q.economicRegions, countOrZero q.outlooks,
   countOrZero q.programNocLinks⟩

def CountQueries.query (q : CountQueries) : Entity → Except Unit Nat
  | .programAreas => q.programAreas
  | .programs => q.programs
  | .nocUnitGroups => q.nocUnitGroups
  | .nocSections => q.nocSections
  | .economicRegions => q.economicRegions
  | .outlooks => q.outlooks
  | .programNocLinks => q.programNocLinks

def RecordCounts.count (c : RecordCounts) : Entity → Nat
  | .programAreas => c.programAreas
  | .programs => c.programs
  | .nocUnitGroups => c.nocUnitGroups
  | .nocSections => c.nocSections
  | .economicRegions => c.economicRegions
  | .outlooks => c.outlooks
  | .programNocLinks => c.programNocLinks

/-- A record of `viu_programs.json` as the core reads it: `nid`, `title`,
`duration`, `credential`, the nested `program_area` (represented by its
`nid`, the only attribute the core dereferences besides passing the object
around), and the keyword/link lists.  `Option` marks fields the JS
accesses with `?.` or truthiness checks. -/
structure ViuProgram where
  nid : Nat
  title : String
  duration : Option String
  credential : Option String
  program_area : Option Nat
  viu_search_keywords : Option (List String)
  noc_search_keywords : Option (List String)
  known_noc_groups : Option (List String)

/-- A nested section of a record of `unit_groups.json`. -/
structure NocSectionSrc where
  title : String
  items : Option (List String)

/-- A record of `unit_groups.json`.  `noc_number` and `occupation` are
`Option String` because the seeder guards them with JS truthiness. -/
structure UnitGroupSrc where
  noc_number : Option String
  occupation : Option String
  sections : Option (List NocSectionSrc)

/-- The three source reads the resume validation performs; `Except.error`
models an unreadable/unparsable file.  `viu_programs.json` is read by
three separate validation blocks against the same path, so one read result
serves all three.  `workbookData` is `workbook[0].data` of the outlooks
spreadsheet, header row included. -/
structure SourceReads where
  viuPrograms : Except Unit (List ViuProgram)
  unitGroups : Except Unit (List UnitGroupSrc)
  workbookData : Except Unit (List (List String))

/-- Size of the `programAreasMap` built by `validateSkipValues`: programs
carrying a `program_area` are keyed by its `nid`, so the size is the number
of distinct such nids. -/
def distinctProgramAreaCount (ps : List ViuProgram) : Nat :=
  ((ps.filterMap fun p => p.program_area).eraseDups).length

/-- `totalLinks` of `validateSkipValues`: the sum over all programs of the
length of their `known_noc_groups` list (absent list contributes 0). -/
def totalKnownNocLinks (ps : List ViuProgram) : Nat :=
  (ps.map fun p =>
    match p.known_noc_groups with
    | some gs => gs.length
    | none => 0).sum

/-- The `SKIP_*` mapping returned by the resume calculator. -/
structure ResumeConfig where
  skipProgramAreas : Nat
  skipPrograms : Nat
  skipNocUnitGroups : Nat
  skipOutlooks : Nat
  skipProgramNocLinks : Nat
deriving DecidableEq, Repr

/-- `resumeConfig` of `calculateResumePositions` (lines 31–37): the five
database counts are used directly as the candidate skip values. -/
def resumeConfigOf (c : RecordCounts) : ResumeConfig :=
  ⟨c.programAreas, c.programs, c.nocUnitGroups, c.outlooks, c.programNocLinks⟩

/-- `validateSkipValues` (`resume-calculator.js` lines 147–272).  Each
entity is validated inside its own try/catch: on a successful source read
the skip value is capped when it exceeds the source collection's size
(`if (skip > total) skip = total`); on a read failure a warning is logged
and the value is left as it was. -/
def validateSkipValues (src : SourceReads) (cfg : ResumeConfig) : ResumeConfig :=
  let c1 :=
    match src.viuPrograms with
    | .ok ps =>
      let totalProgramAreas := distinctProgramAreaCount ps
      if cfg.skipProgramAreas > totalProgramAreas then
        { cfg with skipProgramAreas := totalProgramAreas }
      else cfg
    | .error _ => cfg
  let c2 :=
    match src.viuPrograms with
    | .ok ps =>
      if c1.skipPrograms > ps.length then { c1 with skipPrograms := ps.length } else c1
    | .error _ => c1
  let c3 :=
    match src.unitGroups with
    | .ok ugs =>
      if c2.skipNocUnitGroups > ugs.length then
        { c2 with skipNocUnitGroups := ugs.length }
      else c2
    | .error _ => c2
  let c4 :=
    match src.workbookData with
    | .ok rows =>
      let totalOutlooks := (rows.drop 1).length
      if c3.skipOutlooks > totalOutlooks then { c3 with skipOutlooks := totalOutlooks } else c3
    | .error _ => c3
  let c5 :=
    match src.viuPrograms with
    | .ok ps =>
      let totalLinks := totalKnownNocLinks ps
      if c4.skipProgramNocLinks > totalLinks then
        { c4 with skipProgramNocLinks := totalLinks }
      else c4
    | .error _ => c4
  c5

/-- `calculateResumePositions` (`resume-calculator.js` lines 20–68).
Collaborator failures are caught deeper down (`getExistingRecordCounts`
swallows count-query failures, `validateSkipValues` swallows source-read
failures); `unexpected` models an error thrown by the try-block body
itself (e.g. a logging failure), which the surrounding catch turns into
the all-zero safe default instead of aborting the run. -/
def calculateResumePositions (unexpected : Bool) (q : CountQueries)
    (src : SourceReads) : ResumeConfig :=
  if unexpected then ⟨0, 0, 0, 0, 0⟩
  else validateSkipValues src (resumeConfigOf (getExistingRecordCounts q))

/-! ### Retry policy (`src/utils/database.js`) -/

/-- `DB_CONFIG.MAX_RETRIES` (`config/index.js`). -/
def MAX_RETRIES : Nat := 3

/-- `DB_CONFIG.RETRY_DELAY_MS` (`config/index.js`). -/
def RETRY_DELAY_MS : Nat := 1000

/-- The persistence error conditions `withRetry`/`safeDbOperation`
distinguish, by Prisma error code or message substring: `P2002`
(unique-constraint violation), `P2025` (record not found), a message
containing `Invalid input`, `P2034` (transaction conflict), messages about
connection limits or rate limits, and everything else. -/
inductive DbError
  | uniqueConstraint
  | recordNotFound
  | invalidInput
  | transactionConflict
  | connectionLimit
  | rateLimit
  | other
deriving DecidableEq, Repr

/-- The early-rethrow test of `withRetry` (`database.js` lines 192–197):
unique-constraint, not-found and invalid-input errors are not retried. -/
def DbError.noRetry : DbError → Bool
  | .uniqueConstraint => true
  | .recordNotFound => true
  | .invalidInput => true
  | _ => false

/-- A database operation, given by its outcome on each attempt number
(attempts are numbered from 1 as in the JS loop). -/
abbrev DbOperation (α : Type) : Type := Nat → Except DbError α

/-- The retry loop of `withRetry` (`database.js` lines 178–215), entered at
a given attempt number: on success return; on a no-retry error rethrow at
once; otherwise, while attempts remain, wait `retryDelayMs * attempt` and
try again; with no attempts left throw the last error.  Returns the
outcome, the list of backoff delays waited, and the number of attempts
made from this point on. -/
def withRetryGo (op : DbOperation α) (retryDelayMs maxRetries attempt : Nat) :
    Except DbError α × List Nat × Nat :=
  match op attempt with
  | .ok a => (.ok a, [], 1)
  | .error e =>
    if e.noRetry then (.error e, [], 1)
    else if h : attempt < maxRetries then
      let rest := withRetryGo op retryDelayMs maxRetries (attempt + 1)
      (rest.1, retryDelayMs * attempt :: rest.2.1, rest.2.2 + 1)
    else (.error e, [], 1)
termination_by maxRetries - attempt

/-- `withRetry` (`database.js` lines 178–215): the loop starting at
attempt 1.  Faithful for `maxRetries ≥ 1` (the configuration fixes 3). -/
def withRetry (op : DbOperation α) (retryDelayMs maxRetries : Nat) :
    Except DbError α × List Nat × Nat :=
  withRetryGo op retryDelayMs maxRetries 1

/-- `safeDbOperation` (`database.js` lines 223–278): run the operation
under `withRetry` with the configured limits; on success count a created
and return the result; on any caught error — transaction conflict,
connection/rate limit, unique-constraint, or other — count a skipped, log
it, and return null (every catch branch returns null). -/
def safeDbOperation (op : DbOperation α) : Option α :=
  match (withRetry op RETRY_DELAY_MS MAX_RETRIES).1 with
  | .ok a => some a
  | .error _ => none

/-! ### Entity seeders (`src/seeders/*.js`) -/

/-- The persistence-side credential enum. -/
inductive Credential
  | Certificate
  | Diploma
  | Degree
deriving DecidableEq, Repr

/-- Char-wise lowercasing, the `toLowerCase()` call of `seedPrograms`
(ASCII, which covers the credential labels compared against). -/
def lowerString (s : String) : String := ⟨s.data.map Char.toLower⟩

/-- The credential-mapping switch of `seedPrograms` (`programs.js` lines
34–48): `switch (program.credential?.toLowerCase())` with cases
`certificate`, `diploma`, `degree`; everything else — a missing credential
included — falls through to the `Certificate` default. -/
def mapCredential (credential : Option String) : Credential :=
  match credential with
  | none => .Certificate
  | some s =>
    if lowerString s = "certificate" then .Certificate
    else if lowerString s = "diploma" then .Diploma
    else if lowerString s = "degree" then .Degree
    else .Certificate

/-- The upsert payload `seedPrograms` builds for one program (`programs.js`
lines 53–74; the `update` and `create` payloads carry the same fields). -/
structure ProgramPayload where
  nid : Nat
  title : String
  duration : Option String
  credential : Credential
  viuSearchKeywords : Option (List String)
  nocSearchKeywords : List String
  knownNocGroups : List String
  programAreaId : Nat
deriving DecidableEq, Repr

def programPayload (p : ViuProgram) (programAreaId : Nat) : ProgramPayload :=
  ⟨p.nid, p.title, p.duration, mapCredential p.credential, p.viu_search_keywords,
   p.noc_search_keywords.getD [], p.known_noc_groups.getD [], programAreaId⟩

/-- The processing function of `seedPrograms` (`programs.js` lines 23–79):
look up the ProgramArea by the program's `program_area?.nid` (this
`findUnique` is not wrapped in `safeDbOperation`, so its rejection
propagates to the batch executor's catch); return `skipped` when no area
is found; otherwise upsert the mapped payload via `safeDbOperation` and
return `created` on a result, `error` on null. -/
def seedProgramsProcessor (findArea : Option Nat → Except Unit (Option Nat))
    (upsert : ProgramPayload → Option Unit) : Processor ViuProgram := fun p =>
  match findArea p.program_area with
  | .error e => .error e
  | .ok none => .ok .skipped
  | .ok (some areaId) =>
    match upsert (programPayload p areaId) with
    | some _ => .ok .created
    | none => .ok .error

/-- A flattened link record built by `createProgramNocLinks`
(`program-noc-links.js` lines 26–35). -/
structure LinkRecord where
  programId : Nat
  nocCode : String
  programTitle : String

/-- The processing function of `createProgramNocLinks`
(`program-noc-links.js` lines 37–73): check that the NOC code exists as a
unit group (`findNoc`, again unwrapped); return `skipped` when it does
not; otherwise upsert the link via `safeDbOperation` and return `created`
on a result, `error` on null. -/
def programNocLinkProcessor (findNoc : String → Except Unit Bool)
    (upsert : LinkRecord → Option Unit) : Processor LinkRecord := fun link =>
  match findNoc link.nocCode with
  | .error e => .error e
  | .ok false => .ok .skipped
  | .ok true =>
    match upsert link with
    | some _ => .ok .created
    | none => .ok .error

/-- JS truthiness of an optional string field: `undefined`, `null` and the
empty string are falsy. -/
def falsyStr : Option String → Bool
  | none => true
  | some s => s == ""

/-- The processing function of `seedNocUnitGroups` (`noc-unit-groups.js`
lines 23–84), instrumented with the list of `(nocCode, title)` section
upserts it issues: validate `noc_number`/`occupation` (return `skipped`
with no section work when either is falsy); upsert the unit group via
`safeDbOperation` (on a null result return `error`, again with no section
work); then issue every section upsert in one parallel fan-out, each
individually wrapped in `safeDbOperation` so that per-section failures are
logged and swallowed (their results do not change the outcome); return
`created`. -/
def seedNocUnitGroupProcessor (ugUpsert : String → Option Unit)
    (sectionUpsert : String → NocSectionSrc → Option Unit)
    (ug : UnitGroupSrc) : ProcResult × List (String × String) :=
  if falsyStr ug.noc_number || falsyStr ug.occupation then (.skipped, [])
  else
    let nocNumber := ug.noc_number.getD ""
    match ugUpsert nocNumber with
    | none => (.error, [])
    | some _ =>
      let sections := ug.sections.getD []
      let results := sections.map fun s => sectionUpsert nocNumber s
      let _ := results
      (.created, sections.map fun s => (nocNumber, s.title))

/-! ## Theorems

Shared lemmas about the embedded code come first; the claim theorems,
counterexamples and witnesses follow. -/

@[simp] theorem Tally.add_def (a b : Tally) :
    a + b = ⟨a.created + b.created, a.skipped + b.skipped⟩ := rfl

theorem chunkList_flatten (k : Nat) (l : List α) : (chunkList k l).flatten = l := by
  induction l using chunkList.induct k with
  | case1 l h =>
    rw [chunkList]
    simp_all [List.isEmpty_iff]
  | case2 l h hk =>
    rw [chunkList]
    simp [h, hk]
  | case3 l h hk ih =>
    rw [chunkList]
    simp only [h, hk, if_neg, if_false]
    simp [ih, List.take_append_drop]

theorem tryLoop_no_throw (proc : Processor α) (l : List α)
    (h : ∀ x ∈ l, ∃ r, proc x = .ok r) :
    (tryLoop proc l).presented = l ∧ (tryLoop proc l).threw = false := by
  induction l with
  | nil => simp [tryLoop]
  | cons x xs ih =>
    obtain ⟨r, hr⟩ := h x (List.mem_cons_self x xs)
    have ih' := ih (fun y hy => h y (List.mem_cons_of_mem x hy))
    simp [tryLoop, hr, ih'.1, ih'.2]

theorem processBatch_presented_no_throw (proc : Processor α) (batch : List α)
    (h : ∀ x ∈ batch, ∃ r, proc x = .ok r) :
    (processBatch proc batch).1 = batch := by
  obtain ⟨h1, h2⟩ := tryLoop_no_throw proc batch h
  simp [processBatch, h2, h1]

theorem presentedBatches_eq (proc : Processor α) (bs : List (List α))
    (h : ∀ b ∈ bs, ∀ x ∈ b, ∃ r, proc x = .ok r) :
    ((bs.map (processBatch proc)).map Prod.fst).flatten = bs.flatten := by
  induction bs with
  | nil => simp
  | cons b rest ih =>
    simp only [List.map_cons, List.flatten_cons]
    rw [processBatch_presented_no_throw proc b (h b (List.mem_cons_self b rest)),
      ih (fun b' hb' => h b' (List.mem_cons_of_mem b hb'))]

/-- With a non-throwing processor, the executor's presentation trace is
exactly the post-skip data, in order. -/
theorem presented_eq_of_no_throw (data : List α) (batchSize parallelBatches skipCount : Nat)
    (proc : Processor α)
    (h : ∀ x ∈ data.drop skipCount, ∃ r, proc x = .ok r) :
    (processInParallelBatches data batchSize proc parallelBatches skipCount).1 =
      data.drop skipCount := by
  have key : ∀ (megas : List (List α)), (∀ m ∈ megas, ∀ x ∈ m, ∃ r, proc x = .ok r) →
      (((megas.map (fun mega => (chunkList batchSize mega).map (processBatch proc))).flatten.map
        Prod.fst).flatten) = megas.flatten := by
    intro megas hmem
    induction megas with
    | nil => simp
    | cons m ms ih =>
      simp only [List.map_cons, List.flatten_cons, List.map_append, List.flatten_append]
      congr 1
      · have hb : ∀ b ∈ chunkList batchSize m, ∀ x ∈ b, ∃ r, proc x = .ok r := by
          intro b hbmem x hx
          refine hmem m (List.mem_cons_self m ms) x ?_
          rw [← chunkList_flatten batchSize m]
          exact List.mem_flatten.mpr ⟨b, hbmem, hx⟩
        rw [presentedBatches_eq proc _ hb, chunkList_flatten]
      · exact ih fun m' hm' => hmem m' (List.mem_cons_of_mem m hm')
  have hmegas : ∀ m ∈ chunkList (batchSize * parallelBatches) (data.drop skipCount),
      ∀ x ∈ m, ∃ r, proc x = .ok r := by
    intro m hm x hx
    refine h x ?_
    rw [← chunkList_flatten (batchSize * parallelBatches) (data.drop skipCount)]
    exact List.mem_flatten.mpr ⟨m, hm, hx⟩
  have hk := key _ hmegas
  rw [chunkList_flatten] at hk
  unfold processInParallelBatches
  simpa using hk

theorem countResult_append (proc : Processor α) (r : ProcResult) (l1 l2 : List α) :
    countResult proc r (l1 ++ l2) = countResult proc r l1 + countResult proc r l2 := by
  simp [countResult, List.countP_append]

theorem countResult_partition (proc : Processor α) (l : List α)
    (h : ∀ x ∈ l, ∃ r, proc x = .ok r) :
    countResult proc .created l + countResult proc .skipped l +
      countResult proc .error l = l.length := by
  induction l with
  | nil => simp [countResult]
  | cons x xs ih =>
    obtain ⟨r, hr⟩ := h x (List.mem_cons_self x xs)
    have ih' := ih fun y hy => h y (List.mem_cons_of_mem x hy)
    cases r <;> simp [countResult, List.countP_cons, hr] at ih' ⊢ <;> omega

theorem tryLoop_tally_no_throw (proc : Processor α) (l : List α)
    (h : ∀ x ∈ l, ∃ r, proc x = .ok r) :
    (tryLoop proc l).tally =
      ⟨countResult proc .created l, countResult proc .skipped l⟩ := by
  induction l with
  | nil => simp [tryLoop, countResult]
  | cons x xs ih =>
    obtain ⟨r, hr⟩ := h x (List.mem_cons_self x xs)
    have ih' := ih fun y hy => h y (List.mem_cons_of_mem x hy)
    cases r <;>
      simp [tryLoop, hr, ih', countResult, List.countP_cons, oneTally, Tally.mk.injEq] <;>
      omega

theorem processBatch_tally_no_throw (proc : Processor α) (batch : List α)
    (h : ∀ x ∈ batch, ∃ r, proc x = .ok r) :
    (processBatch proc batch).2 =
      ⟨countResult proc .created batch, countResult proc .skipped batch⟩ := by
  obtain ⟨-, h2⟩ := tryLoop_no_throw proc batch h
  rw [processBatch, h2]
  simpa using tryLoop_tally_no_throw proc batch h

theorem batchesTally_no_throw (proc : Processor α) (bs : List (List α))
    (h : ∀ b ∈ bs, ∀ x ∈ b, ∃ r, proc x = .ok r) :
    ((bs.map (processBatch proc)).map (fun r => r.2.created)).sum
        = countResult proc .created bs.flatten ∧
      ((bs.map (processBatch proc)).map (fun r => r.2.skipped)).sum
        = countResult proc .skipped bs.flatten := by
  induction bs with
  | nil => simp [countResult]
  | cons b rest ih =>
    have hb := processBatch_tally_no_throw proc b (h b (List.mem_cons_self b rest))
    have ih' := ih fun b' hb' => h b' (List.mem_cons_of_mem b hb')
    simp only [List.map_cons, List.sum_cons, List.flatten_cons, countResult_append, hb,
      ih'.1, ih'.2]
    exact ⟨trivial, trivial⟩

/-- With a non-throwing processor, the executor's returned counters are
exactly the per-outcome counts over the post-skip data. -/
theorem tally_eq_of_no_throw (data : List α) (batchSize parallelBatches skipCount : Nat)
    (proc : Processor α)
    (h : ∀ x ∈ data.drop skipCount, ∃ r, proc x = .ok r) :
    (processInParallelBatches data batchSize proc parallelBatches skipCount).2 =
      ⟨countResult proc .created (data.drop skipCount),
       countResult proc .skipped (data.drop skipCount)⟩ := by
  have key : ∀ megas : List (List α), (∀ m ∈ megas, ∀ x ∈ m, ∃ r, proc x = .ok r) →
      ((((megas.map (fun mega =>
            (chunkList batchSize mega).map (processBatch proc))).flatten).map
          (fun r => r.2.created)).sum = countResult proc .created megas.flatten) ∧
      ((((megas.map (fun mega =>
            (chunkList batchSize mega).map (processBatch proc))).flatten).map
          (fun r => r.2.skipped)).sum = countResult proc .skipped megas.flatten) := by
    intro megas hmem
    induction megas with
    | nil => simp [countResult]
    | cons m ms ih =>
      have hb : ∀ b ∈ chunkList batchSize m, ∀ x ∈ b, ∃ r, proc x = .ok r := by
        intro b hbmem x hx
        refine hmem m (List.mem_cons_self m ms) x ?_
        rw [← chunkList_flatten batchSize m]
        exact List.mem_flatten.mpr ⟨b, hbmem, hx⟩
      have hbt := batchesTally_no_throw proc (chunkList batchSize m) hb
      rw [chunkList_flatten] at hbt
      have ih' := ih fun m' hm' => hmem m' (List.mem_cons_of_mem m hm')
      simp only [List.map_cons, List.flatten_cons, List.map_append, List.sum_append,
        countResult_append]
      exact ⟨by rw [hbt.1, ih'.1], by rw [hbt.2, ih'.2]⟩
  have hmegas : ∀ m ∈ chunkList (batchSize * parallelBatches) (data.drop skipCount),
      ∀ x ∈ m, ∃ r, proc x = .ok r := by
    intro m hm x hx
    refine h x ?_
    rw [← chunkList_flatten (batchSize * parallelBatches) (data.drop skipCount)]
    exact List.mem_flatten.mpr ⟨m, hm, hx⟩
  have hk := key _ hmegas
  rw [chunkList_flatten] at hk
  unfold processInParallelBatches
  exact congrArg₂ Tally.mk hk.1 hk.2

/-- The `try` loop presents a prefix of the batch: the records up to and
including the one whose processing threw. -/
theorem tryLoop_presented_take (proc : Processor α) (l : List α) :
    ∃ j, j ≤ l.length ∧ (tryLoop proc l).presented = l.take j := by
  induction l with
  | nil => exact ⟨0, by simp [tryLoop]⟩
  | cons x xs ih =>
    match hr : proc x with
    | .error e => exact ⟨1, by simp [tryLoop, hr]⟩
    | .ok r =>
      obtain ⟨j, hj, hp⟩ := ih
      exact ⟨j + 1, by simpa [tryLoop, hr, hp] using hj⟩

theorem fallbackLoop_presented (proc : Processor α) (l : List α) :
    (fallbackLoop proc l).1 = l := by
  induction l with
  | nil => rfl
  | cons x xs ih => cases hr : proc x <;> simp [fallbackLoop, hr, ih]

theorem processBatch_presented_of_throw (proc : Processor α) (batch : List α)
    (h : (tryLoop proc batch).threw = true) :
    (processBatch proc batch).1 = (tryLoop proc batch).presented ++ batch := by
  rw [processBatch, h]
  simp [fallbackLoop_presented]

theorem chunkList_single (k : Nat) (l : List α) (h0 : l ≠ []) (hk : l.length ≤ k)
    (hkk : k ≠ 0) : chunkList k l = [l] := by
  rw [chunkList]
  rw [if_neg (by simpa [List.isEmpty_iff] using h0), if_neg hkk,
    List.take_of_length_le hk, List.drop_eq_nil_of_le hk]
  rw [chunkList]
  simp

/-- On data that fits into one batch of one mega-batch, the executor is one
`processBatch` call. -/
theorem processInParallelBatches_single (data : List α) (batchSize parallelBatches : Nat)
    (proc : Processor α) (h0 : data ≠ []) (hbs : data.length ≤ batchSize)
    (hkk : batchSize ≠ 0) (hpb : parallelBatches ≠ 0) :
    processInParallelBatches data batchSize proc parallelBatches 0 =
      ((processBatch proc data).1, (processBatch proc data).2) := by
  have hmega : data.length ≤ batchSize * parallelBatches := by
    calc data.length ≤ batchSize := hbs
    _ ≤ batchSize * parallelBatches := Nat.le_mul_of_pos_right _ (Nat.pos_of_ne_zero hpb)
  unfold processInParallelBatches
  simp only [List.drop_zero, chunkList_single _ data h0 hmega (Nat.mul_ne_zero hkk hpb),
    List.map_cons, List.map_nil, chunkList_single _ data h0 hbs hkk]
  simp

theorem processBatch_presented_subset (proc : Processor α) (b : List α) :
    ∀ x ∈ (processBatch proc b).1, x ∈ b := by
  intro x hx
  obtain ⟨j, hj, hp⟩ := tryLoop_presented_take proc b
  rw [processBatch] at hx
  by_cases ht : (tryLoop proc b).threw = true
  · rw [if_pos ht] at hx
    rcases List.mem_append.mp hx with hm | hm
    · exact List.mem_of_mem_take (hp ▸ hm)
    · rwa [fallbackLoop_presented] at hm
  · rw [if_neg ht] at hx
    exact List.mem_of_mem_take (hp ▸ hx)

theorem mem_of_mem_chunkList (k : Nat) (l b : List α) (hb : b ∈ chunkList k l)
    (x : α) (hx : x ∈ b) : x ∈ l := by
  rw [← chunkList_flatten k l]
  exact List.mem_flatten.mpr ⟨b, hb, hx⟩

/-- Every record the executor presents comes from the post-skip data. -/
theorem presented_mem_drop (data : List α) (batchSize parallelBatches skipCount : Nat)
    (proc : Processor α) (x : α)
    (hx : x ∈ (processInParallelBatches data batchSize proc parallelBatches skipCount).1) :
    x ∈ data.drop skipCount := by
  unfold processInParallelBatches at hx
  simp only [List.mem_flatten, List.mem_map] at hx
  obtain ⟨l, ⟨run, hrun, rfl⟩, hxl⟩ := hx
  obtain ⟨gl, ⟨mega, hmega, rfl⟩, hrungl⟩ := hrun
  obtain ⟨b, hb, rfl⟩ := List.mem_map.mp hrungl
  have hxb : x ∈ b := processBatch_presented_subset proc b _ hxl
  have hxm : x ∈ mega := mem_of_mem_chunkList batchSize mega b hb x hxb
  exact mem_of_mem_chunkList (batchSize * parallelBatches) _ mega hmega x hxm

theorem chunkList_nil (k : Nat) : chunkList k ([] : List α) = [] := by
  rw [chunkList]
  simp

/-- When the skip offset covers the whole source, the executor presents
nothing and returns zero counters. -/
theorem processInParallelBatches_skip_all (data : List α)
    (batchSize parallelBatches skipCount : Nat) (proc : Processor α)
    (h : data.length ≤ skipCount) :
    (processInParallelBatches data batchSize proc parallelBatches skipCount).1 = [] ∧
      (processInParallelBatches data batchSize proc parallelBatches skipCount).2 = ⟨0, 0⟩ := by
  have hd : data.drop skipCount = [] := List.drop_eq_nil_of_le h
  unfold processInParallelBatches
  simp [hd, chunkList_nil]

/-! ### Claim C1: the batch executor's presentation guarantee -/

/-- C1, counterexample.  Run the executor on `[0, 1]` as a single group
with processing that returns `created` for record `0` and then throws on
record `1`: the `try` loop presents `0` and `1`, the fallback re-presents
the whole group, so the trace is `[0, 1, 0, 1]` and record `0` is presented
twice, not exactly once.  The fallback re-attempts every record of the
group, not only the remaining ones. -/
theorem batchExecutor_exactly_once_refuted :
    (processInParallelBatches [0, 1] 2 procThrowOn1 1 0).1 = [0, 1, 0, 1] ∧
      ¬ (processInParallelBatches [0, 1] 2 procThrowOn1 1 0).1.count 0 = 1 := by
  have h : (processInParallelBatches [0, 1] 2 procThrowOn1 1 0).1 = [0, 1, 0, 1] := by
    rw [processInParallelBatches_single [0, 1] 2 1 procThrowOn1
      (by decide) (by decide) (by decide) (by decide)]
    decide
  exact ⟨h, by rw [h]; decide⟩

/-- C1, amended.  When no processor invocation on the post-skip records
throws, the executor presents every record after the skip offset exactly
once and in source order (the trace is exactly `data.drop skipCount`).
When a group does throw, the guarantee is weaker than the claim states:
the `try` loop presents a prefix `batch.take j` of the group and the
fallback then re-presents the entire group — so the first `j` records of
that group are presented twice, though each pass preserves the group's
order. -/
theorem batchExecutor_presentation (data : List α)
    (batchSize parallelBatches skipCount : Nat) (proc : Processor α)
    (h : ∀ x ∈ data.drop skipCount, ∃ r, proc x = .ok r) :
    (processInParallelBatches data batchSize proc parallelBatches skipCount).1 =
        data.drop skipCount ∧
      ∀ batch : List α, ∃ j, j ≤ batch.length ∧
        (tryLoop proc batch).presented = batch.take j ∧
        ((tryLoop proc batch).threw = true →
          (processBatch proc batch).1 = batch.take j ++ batch) := by
  refine ⟨presented_eq_of_no_throw data batchSize parallelBatches skipCount proc h, ?_⟩
  intro batch
  obtain ⟨j, hj, hp⟩ := tryLoop_presented_take proc batch
  exact ⟨j, hj, hp, fun ht => by
    rw [processBatch_presented_of_throw proc batch ht, hp]⟩

/-- Witness for the amended C1 at a concrete run: three records, skip 1,
an always-succeeding processor. -/
theorem batchExecutor_presentation_witness :
    (processInParallelBatches [5, 6, 7] 2
        (fun _ => Except.ok ProcResult.created) 1 1).1 = [6, 7] := by
  have h := (batchExecutor_presentation [5, 6, 7] 2 1 1
    (fun _ => Except.ok ProcResult.created) (fun _ _ => ⟨.created, rfl⟩)).1
  simpa using h

/-! ### Claim C2: the batch executor's created/skipped tally -/

/-- C2, counterexample.  On one record whose processing returns `'error'`,
the executor returns `{created := 0, skipped := 0}`: the error outcome is
counted in neither field (lines 65–69 of `batch-processor.js` increment a
counter only for `'created'` and `'skipped'`), so
`created + skipped = 0 ≠ 1 = n − s`. -/
theorem batchExecutor_tally_refuted :
    (processInParallelBatches [0] 1 procAlwaysError 1 0).2.created +
        (processInParallelBatches [0] 1 procAlwaysError 1 0).2.skipped = 0 ∧
      ([0] : List Nat).length - 0 = 1 := by
  have h : (processInParallelBatches [0] 1 procAlwaysError 1 0).2 = ⟨0, 0⟩ := by
    rw [processInParallelBatches_single [0] 1 1 procAlwaysError
      (by decide) (by decide) (by decide) (by decide)]
    decide
  rw [h]
  exact ⟨rfl, rfl⟩

/-- C2, amended.  When no processor invocation on the post-skip records
throws, the returned `created` and `skipped` fields are exactly the counts
of `'created'` and `'skipped'` outcomes over the `n − s` presented records,
and `created + skipped + #error = n − s`: outcomes of `'error'` are dropped
from the caller-visible tally, not folded into `skipped`, so
`created + skipped = n − s` holds exactly when no presented record returns
`'error'`. -/
theorem batchExecutor_tally_accounting (data : List α)
    (batchSize parallelBatches skipCount : Nat) (proc : Processor α)
    (h : ∀ x ∈ data.drop skipCount, ∃ r, proc x = .ok r) :
    (processInParallelBatches data batchSize proc parallelBatches skipCount).2.created =
        countResult proc .created (data.drop skipCount) ∧
      (processInParallelBatches data batchSize proc parallelBatches skipCount).2.skipped =
        countResult proc .skipped (data.drop skipCount) ∧
      (processInParallelBatches data batchSize proc parallelBatches skipCount).2.created +
          (processInParallelBatches data batchSize proc parallelBatches skipCount).2.skipped +
          countResult proc .error (data.drop skipCount) =
        (data.drop skipCount).length := by
  have ht := tally_eq_of_no_throw data batchSize parallelBatches skipCount proc h
  have hp := countResult_partition proc (data.drop skipCount) h
  rw [ht]
  exact ⟨rfl, rfl, hp⟩

/-- Witness for the amended C2 at a concrete run: records `[1, 2, 3]` with
skip 1; record 2 is skipped, record 3 created, and `1 + 1 = 2 = n − s`. -/
theorem batchExecutor_tally_accounting_witness :
    (processInParallelBatches [1, 2, 3] 2 procSkipOn2 1 1).2.created = 1 ∧
      (processInParallelBatches [1, 2, 3] 2 procSkipOn2 1 1).2.skipped = 1 := by
  have h := batchExecutor_tally_accounting [1, 2, 3] 2 1 1 procSkipOn2 (by
    intro x hx
    fin_cases hx
    · exact ⟨.skipped, rfl⟩
    · exact ⟨.created, rfl⟩)
  refine ⟨?_, ?_⟩
  · rw [h.1]; decide
  · rw [h.2.1]; decide

set_option maxHeartbeats 1000000 in
/-- Closed form of `validateSkipValues` when all three source reads
succeed: every skip value is clamped with `min` against its source size
(the code caps only when the value exceeds the size, which is the same). -/
theorem validateSkipValues_ok (src : SourceReads) (cfg : ResumeConfig)
    (ps : List ViuProgram) (ugs : List UnitGroupSrc) (rows : List (List String))
    (hps : src.viuPrograms = .ok ps) (hugs : src.unitGroups = .ok ugs)
    (hrows : src.workbookData = .ok rows) :
    validateSkipValues src cfg =
      ⟨min cfg.skipProgramAreas (distinctProgramAreaCount ps),
       min cfg.skipPrograms ps.length,
       min cfg.skipNocUnitGroups ugs.length,
       min cfg.skipOutlooks (rows.drop 1).length,
       min cfg.skipProgramNocLinks (totalKnownNocLinks ps)⟩ := by
  obtain ⟨a, b, c, d, e⟩ := cfg
  simp only [validateSkipValues, hps, hugs, hrows]
  split_ifs <;> simp_all [ResumeConfig.mk.injEq] <;> omega

/-- When the programs file is unreadable, the three skip values validated
against it pass through `validateSkipValues` unchanged. -/
theorem validateSkipValues_viu_error (src : SourceReads) (cfg : ResumeConfig)
    (h : src.viuPrograms = .error ()) :
    (validateSkipValues src cfg).skipProgramAreas = cfg.skipProgramAreas ∧
      (validateSkipValues src cfg).skipPrograms = cfg.skipPrograms ∧
      (validateSkipValues src cfg).skipProgramNocLinks = cfg.skipProgramNocLinks := by
  obtain ⟨a, b, c, d, e⟩ := cfg
  cases hu : src.unitGroups <;> cases hw : src.workbookData <;>
    simp only [validateSkipValues, h, hu, hw] <;>
    (try split_ifs) <;> simp

/-! ### Claim C3: store counts drive the candidate skip values -/

/-- C3.  When the five tracked count queries succeed with values
`nPA, nP, nUG, nO, nL`, the resume calculator's candidate skip mapping is
exactly those counts, with no scaling (`resume-calculator.js` lines
31–37); and an executor run whose skip offset is the programs skip value
only ever presents records from `data.drop nP`, i.e. records at index
`≥ nP`. -/
theorem resumeCalculator_counts_drive_skips (q : CountQueries)
    (nPA nP nUG nO nL : Nat)
    (hPA : q.programAreas = .ok nPA) (hP : q.programs = .ok nP)
    (hUG : q.nocUnitGroups = .ok nUG) (hO : q.outlooks = .ok nO)
    (hL : q.programNocLinks = .ok nL) :
    resumeConfigOf (getExistingRecordCounts q) = ⟨nPA, nP, nUG, nO, nL⟩ ∧
      ∀ (β : Type) (data : List β) (batchSize parallelBatches : Nat)
        (proc : Processor β) (x : β),
        x ∈ (processInParallelBatches data batchSize proc parallelBatches
              (resumeConfigOf (getExistingRecordCounts q)).skipPrograms).1 →
          x ∈ data.drop nP := by
  have hc : resumeConfigOf (getExistingRecordCounts q) = ⟨nPA, nP, nUG, nO, nL⟩ := by
    simp [resumeConfigOf, getExistingRecordCounts, countOrZero, hPA, hP, hUG, hO, hL]
  refine ⟨hc, ?_⟩
  intro β data batchSize parallelBatches proc x hx
  rw [hc] at hx
  exact presented_mem_drop data batchSize parallelBatches nP proc x hx

/-- Witness for C3 at one concrete set of successful count queries. -/
theorem resumeCalculator_counts_drive_skips_witness :
    resumeConfigOf (getExistingRecordCounts
        ⟨.ok 1, .ok 2, .ok 3, .ok 9, .ok 9, .ok 4, .ok 5⟩) = ⟨1, 2, 3, 4, 5⟩ :=
  (resumeCalculator_counts_drive_skips
    ⟨.ok 1, .ok 2, .ok 3, .ok 9, .ok 9, .ok 4, .ok 5⟩ 1 2 3 4 5
    rfl rfl rfl rfl rfl).1

/-! ### Claim C4: skip values are capped at the source collection size -/

/-- C4.  With all three source reads succeeding, each validated skip value
equals `min candidate S(E)` where `S(E)` is the authoritative size of that
entity's source collection (distinct program-area nids, program count,
unit-group count, outlook rows after the header, total known-NOC links):
so a candidate exceeding `S(E)` is capped at exactly `S(E)` and one not
exceeding it is unchanged.  And a seeder run whose skip offset is at least
the source length presents zero records and returns zero counts — with
`Nat` skip arithmetic, never a negative count. -/
theorem skipValidation_caps (src : SourceReads) (cfg : ResumeConfig)
    (ps : List ViuProgram) (ugs : List UnitGroupSrc) (rows : List (List String))
    (hps : src.viuPrograms = .ok ps) (hugs : src.unitGroups = .ok ugs)
    (hrows : src.workbookData = .ok rows) :
    (validateSkipValues src cfg).skipProgramAreas
        = min cfg.skipProgramAreas (distinctProgramAreaCount ps) ∧
      (validateSkipValues src cfg).skipPrograms = min cfg.skipPrograms ps.length ∧
      (validateSkipValues src cfg).skipNocUnitGroups
        = min cfg.skipNocUnitGroups ugs.length ∧
      (validateSkipValues src cfg).skipOutlooks
        = min cfg.skipOutlooks (rows.drop 1).length ∧
      (validateSkipValues src cfg).skipProgramNocLinks
        = min cfg.skipProgramNocLinks (totalKnownNocLinks ps) ∧
      ∀ (β : Type) (data : List β) (batchSize parallelBatches s : Nat)
        (proc : Processor β), data.length ≤ s →
          (processInParallelBatches data batchSize proc parallelBatches s).1 = [] ∧
          (processInParallelBatches data batchSize proc parallelBatches s).2 = ⟨0, 0⟩ := by
  rw [validateSkipValues_ok src cfg ps ugs rows hps hugs hrows]
  exact ⟨rfl, rfl, rfl, rfl, rfl, fun β data bs pb s proc hle =>
    processInParallelBatches_skip_all data bs pb s proc hle⟩

/-- Witness for C4: a concrete source (two programs over one area with one
known link, one unit group, one outlook data row) and candidate skips of 5
everywhere; every validated skip is capped at its source size. -/
theorem skipValidation_caps_witness :
    (validateSkipValues
        ⟨.ok [⟨1, "A", none, none, some 10, none, none, some ["g1"]⟩,
              ⟨2, "B", none, none, some 10, none, none, none⟩],
         .ok [⟨some "1", some "occ", none⟩],
         .ok [["h"], ["r"]]⟩
        ⟨5, 5, 5, 5, 5⟩).skipPrograms = 2 ∧
      (validateSkipValues
        ⟨.ok [⟨1, "A", none, none, some 10, none, none, some ["g1"]⟩,
              ⟨2, "B", none, none, some 10, none, none, none⟩],
         .ok [⟨some "1", some "occ", none⟩],
         .ok [["h"], ["r"]]⟩
        ⟨5, 5, 5, 5, 5⟩).skipProgramAreas = 1 ∧
      (processInParallelBatches ([0] : List Nat) 1
        (fun _ => Except.ok ProcResult.created) 1 5).1 = [] := by
  have h := skipValidation_caps
    ⟨.ok [⟨1, "A", none, none, some 10, none, none, some ["g1"]⟩,
          ⟨2, "B", none, none, some 10, none, none, none⟩],
     .ok [⟨some "1", some "occ", none⟩],
     .ok [["h"], ["r"]]⟩
    ⟨5, 5, 5, 5, 5⟩
    [⟨1, "A", none, none, some 10, none, none, some ["g1"]⟩,
     ⟨2, "B", none, none, some 10, none, none, none⟩]
    [⟨some "1", some "occ", none⟩]
    [["h"], ["r"]] rfl rfl rfl
  refine ⟨h.2.1.trans (by decide), h.1.trans (by decide), ?_⟩
  exact (h.2.2.2.2.2 Nat [0] 1 1 5 (fun _ => Except.ok ProcResult.created) (by decide)).1

/-! ### Claim C5: failure semantics of the resume calculation -/

/-- C5, counterexample.  An unreadable `viu_programs.json` during skip
validation does not yield the all-zero mapping: with a programs count of 5
in the store and the read failing, the returned mapping keeps
`SKIP_PROGRAMS = 5` (uncapped), because `validateSkipValues` catches the
read failure per entity and leaves the value as it was. -/
theorem resumeCalculator_fail_open_refuted :
    calculateResumePositions false
        ⟨.ok 0, .ok 5, .ok 0, .ok 0, .ok 0, .ok 0, .ok 0⟩
        ⟨.error (), .ok [], .ok []⟩ = ⟨0, 5, 0, 0, 0⟩ ∧
      ¬ calculateResumePositions false
          ⟨.ok 0, .ok 5, .ok 0, .ok 0, .ok 0, .ok 0, .ok 0⟩
          ⟨.error (), .ok [], .ok []⟩ = ⟨0, 0, 0, 0, 0⟩ := by
  exact ⟨rfl, by decide⟩

/-- C5, amended.  Only an unexpected error escaping the try block of
`calculateResumePositions` itself produces the all-zero fallback mapping
(and the function still returns rather than aborting).  An unreadable
source file during skip-value validation is caught inside
`validateSkipValues` for that entity alone: the affected skip values stay
equal to the raw store counts (unvalidated), and the mapping is returned
as usual. -/
theorem resumeCalculator_fail_open (q : CountQueries) (src : SourceReads)
    (h : src.viuPrograms = .error ()) :
    calculateResumePositions true q src = ⟨0, 0, 0, 0, 0⟩ ∧
      (calculateResumePositions false q src).skipProgramAreas
          = countOrZero q.programAreas ∧
      (calculateResumePositions false q src).skipPrograms = countOrZero q.programs ∧
      (calculateResumePositions false q src).skipProgramNocLinks
          = countOrZero q.programNocLinks := by
  have hv := validateSkipValues_viu_error src (resumeConfigOf (getExistingRecordCounts q)) h
  exact ⟨rfl, hv.1, hv.2.1, hv.2.2⟩

/-- Witness for the amended C5 at concrete queries and an unreadable
programs file. -/
theorem resumeCalculator_fail_open_witness :
    calculateResumePositions true ⟨.ok 1, .ok 2, .ok 3, .ok 4, .ok 5, .ok 6, .ok 7⟩
        ⟨.error (), .ok [], .ok []⟩ = ⟨0, 0, 0, 0, 0⟩ ∧
      (calculateResumePositions false ⟨.ok 1, .ok 2, .ok 3, .ok 4, .ok 5, .ok 6, .ok 7⟩
        ⟨.error (), .ok [], .ok []⟩).skipPrograms = 2 := by
  have h := resumeCalculator_fail_open ⟨.ok 1, .ok 2, .ok 3, .ok 4, .ok 5, .ok 6, .ok 7⟩
    ⟨.error (), .ok [], .ok []⟩ rfl
  exact ⟨h.1, h.2.2.1⟩

/-! ### Claim C6: a failed count query defaults to zero, in isolation -/

/-- C6.  When one entity's count query fails, `getExistingRecordCounts`
records 0 for that entity (the failure is caught in that entity's own
try/catch and logged, not raised), and every other entity's recorded count
is exactly its own query's successful value — unaffected by the failure. -/
theorem countQueryFailure_defaults_zero (q : CountQueries) (e : Entity)
    (he : q.query e = .error ()) :
    (getExistingRecordCounts q).count e = 0 ∧
      ∀ e' n, e' ≠ e → q.query e' = .ok n →
        (getExistingRecordCounts q).count e' = n := by
  constructor
  · cases e <;>
      simp only [CountQueries.query] at he <;>
      simp [RecordCounts.count, getExistingRecordCounts, he, countOrZero]
  · intro e' n hne h'
    cases e' <;>
      simp only [CountQueries.query] at h' <;>
      simp [RecordCounts.count, getExistingRecordCounts, h', countOrZero]

/-- Witness for C6: the programs count query fails, programs defaults to 0
while the outlook count keeps its queried value 6. -/
theorem countQueryFailure_defaults_zero_witness :
    (getExistingRecordCounts
        ⟨.ok 1, .error (), .ok 3, .ok 4, .ok 5, .ok 6, .ok 7⟩).count Entity.programs = 0 ∧
      (getExistingRecordCounts
        ⟨.ok 1, .error (), .ok 3, .ok 4, .ok 5, .ok 6, .ok 7⟩).count Entity.outlooks = 6 := by
  have h := countQueryFailure_defaults_zero
    ⟨.ok 1, .error (), .ok 3, .ok 4, .ok 5, .ok 6, .ok 7⟩ Entity.programs rfl
  exact ⟨h.1, h.2 Entity.outlooks 6 (by decide) rfl⟩

/-! ### Claim C7: retry and error-classification policy -/

/-- When every attempt up to the maximum fails with an error that is not
in the no-retry class, the retry loop from `attempt` makes all remaining
attempts, waits `base * k` before attempt `k + 1` (linearly increasing),
and ends with a transient error. -/
theorem withRetryGo_transient (op : DbOperation α) (base maxR : Nat) :
    ∀ n attempt, 1 ≤ attempt → attempt ≤ maxR → maxR - attempt = n →
      (∀ k, attempt ≤ k → k ≤ maxR → ∃ e, op k = .error e ∧ e.noRetry = false) →
      ∃ e, (withRetryGo op base maxR attempt).1 = .error e ∧ e.noRetry = false ∧
        (withRetryGo op base maxR attempt).2.1 =
          (List.range n).map (fun i => base * (attempt + i)) ∧
        (withRetryGo op base maxR attempt).2.2 = n + 1 := by
  intro n
  induction n with
  | zero =>
    intro attempt h1 hle hn hall
    obtain ⟨e, he, hnr⟩ := hall attempt le_rfl hle
    have hnl : ¬ attempt < maxR := by omega
    have hstep : withRetryGo op base maxR attempt = (.error e, [], 1) := by
      rw [withRetryGo.eq_def, he]
      simp [hnr, hnl]
    refine ⟨e, ?_, hnr, ?_, ?_⟩ <;> rw [hstep] <;> simp
  | succ n ih =>
    intro attempt h1 hle hn hall
    obtain ⟨e, he, hnr⟩ := hall attempt le_rfl hle
    have hlt : attempt < maxR := by omega
    obtain ⟨e', he', hnr', hd', ha'⟩ := ih (attempt + 1) (by omega) (by omega) (by omega)
      (fun k hk1 hk2 => hall k (by omega) hk2)
    have hstep : withRetryGo op base maxR attempt =
        ((withRetryGo op base maxR (attempt + 1)).1,
         base * attempt :: (withRetryGo op base maxR (attempt + 1)).2.1,
         (withRetryGo op base maxR (attempt + 1)).2.2 + 1) := by
      rw [withRetryGo.eq_def, he]
      simp [hnr, hlt]
    refine ⟨e', by rw [hstep]; exact he', hnr', ?_, by rw [hstep]; simp [ha']⟩
    rw [hstep]
    simp only [hd', List.range_succ_eq_map, List.map_cons, List.map_map]
    simp [Function.comp]
    exact fun a _ => Or.inl (by omega)

/-- C7.  A transient failure (any error outside the no-retry class, which
includes transaction conflicts and connection/rate-limit exhaustion) is
retried up to the configured maximum of attempts with linearly increasing
backoff `RETRY_DELAY_MS * attempt`, and on exhaustion `safeDbOperation`
returns no result (`none`) instead of propagating; a uniqueness-constraint,
not-found or invalid-input failure ends the loop at the first attempt with
no backoff, and `safeDbOperation` again returns `none` immediately. -/
theorem retryPolicy (op : DbOperation α) :
    ((∀ k, 1 ≤ k → k ≤ MAX_RETRIES → ∃ e, op k = .error e ∧ e.noRetry = false) →
      (withRetry op RETRY_DELAY_MS MAX_RETRIES).2.2 = MAX_RETRIES ∧
      (withRetry op RETRY_DELAY_MS MAX_RETRIES).2.1 =
        (List.range (MAX_RETRIES - 1)).map (fun i => RETRY_DELAY_MS * (1 + i)) ∧
      safeDbOperation op = none) ∧
    (∀ e : DbError, e.noRetry = true → op 1 = .error e →
      (withRetry op RETRY_DELAY_MS MAX_RETRIES).2.2 = 1 ∧
      (withRetry op RETRY_DELAY_MS MAX_RETRIES).2.1 = [] ∧
      (withRetry op RETRY_DELAY_MS MAX_RETRIES).1 = .error e ∧
      safeDbOperation op = none) := by
  constructor
  · intro hall
    obtain ⟨e, h1, hnr, hd, ha⟩ := withRetryGo_transient op RETRY_DELAY_MS MAX_RETRIES
      (MAX_RETRIES - 1) 1 le_rfl (by decide) (by decide) (fun k hk1 hk2 => hall k hk1 hk2)
    refine ⟨ha, ?_, ?_⟩
    · simpa using hd
    · simp only [safeDbOperation, withRetry] at *
      rw [h1]
  · intro e hnr h1
    have hstep : withRetry op RETRY_DELAY_MS MAX_RETRIES = (.error e, [], 1) := by
      rw [withRetry, withRetryGo.eq_def, h1]
      simp [hnr]
    refine ⟨by rw [hstep], by rw [hstep], by rw [hstep], ?_⟩
    simp [safeDbOperation, hstep]

/-- Witness for C7: an operation failing with a rate-limit error on every
attempt makes 3 attempts with backoffs 1000 ms and 2000 ms, then yields
`none`; one failing with a uniqueness violation stops after 1 attempt. -/
theorem retryPolicy_witness :
    (withRetry (fun _ => Except.error DbError.rateLimit : DbOperation Unit)
        RETRY_DELAY_MS MAX_RETRIES).2.2 = 3 ∧
      (withRetry (fun _ => Except.error DbError.rateLimit : DbOperation Unit)
        RETRY_DELAY_MS MAX_RETRIES).2.1 = [1000, 2000] ∧
      safeDbOperation (fun _ => Except.error DbError.rateLimit : DbOperation Unit) = none ∧
      (withRetry (fun _ => Except.error DbError.uniqueConstraint : DbOperation Unit)
        RETRY_DELAY_MS MAX_RETRIES).2.2 = 1 ∧
      safeDbOperation (fun _ => Except.error DbError.uniqueConstraint : DbOperation Unit)
        = none := by
  have h := (retryPolicy (fun _ => Except.error DbError.rateLimit : DbOperation Unit)).1
    (fun k _ _ => ⟨.rateLimit, rfl, rfl⟩)
  have h2 := (retryPolicy (fun _ => Except.error DbError.uniqueConstraint : DbOperation Unit)).2
    .uniqueConstraint rfl rfl
  exact ⟨h.1, h.2.1.trans (by decide), h.2.2, h2.1, h2.2.2.2⟩

/-! ### Claim C8: missing foreign-key dependencies skip the record only -/

/-- C8.  A program whose ProgramArea lookup finds nothing is returned as
`skipped` (never `created`) by the programs processing function, and a
link whose classification code does not exist as a unit group is returned
as `skipped` by the links processing function; since the result depends
only on the record, it is the same at every position of the batch.  And
whenever the lookups resolve for every record of a batch (found or not
found alike), the `try` loop processes the whole batch without throwing —
the batch continues past skipped records. -/
theorem missingDependency_skips (findArea : Option Nat → Except Unit (Option Nat))
    (upsert : ProgramPayload → Option Unit) (p : ViuProgram)
    (findNoc : String → Except Unit Bool) (linkUpsert : LinkRecord → Option Unit)
    (link : LinkRecord)
    (hp : findArea p.program_area = .ok none) (hl : findNoc link.nocCode = .ok false) :
    seedProgramsProcessor findArea upsert p = .ok .skipped ∧
      programNocLinkProcessor findNoc linkUpsert link = .ok .skipped ∧
      ∀ batch : List ViuProgram,
        (∀ q ∈ batch, ∃ v, findArea q.program_area = .ok v) →
        (tryLoop (seedProgramsProcessor findArea upsert) batch).presented = batch ∧
        (tryLoop (seedProgramsProcessor findArea upsert) batch).threw = false := by
  refine ⟨?_, ?_, ?_⟩
  · simp [seedProgramsProcessor, hp]
  · simp [programNocLinkProcessor, hl]
  · intro batch hb
    apply tryLoop_no_throw
    intro q hq
    obtain ⟨v, hv⟩ := hb q hq
    cases v with
    | none => exact ⟨.skipped, by simp [seedProgramsProcessor, hv]⟩
    | some aid =>
      cases hu : upsert (programPayload q aid) with
      | none => exact ⟨.error, by simp [seedProgramsProcessor, hv, hu]⟩
      | some u => exact ⟨.created, by simp [seedProgramsProcessor, hv, hu]⟩

/-- Witness for C8 on one concrete program and one concrete link whose
dependencies are absent. -/
theorem missingDependency_skips_witness :
    seedProgramsProcessor (fun _ => .ok none) (fun _ => none)
        ⟨1, "X", none, none, some 9, none, none, none⟩ = .ok .skipped ∧
      programNocLinkProcessor (fun _ => .ok false) (fun _ => none)
        ⟨1, "12345", "X"⟩ = .ok .skipped := by
  have h := missingDependency_skips (fun _ => .ok none) (fun _ => none)
    ⟨1, "X", none, none, some 9, none, none, none⟩
    (fun _ => .ok false) (fun _ => none) ⟨1, "12345", "X"⟩ rfl rfl
  exact ⟨h.1, h.2.1⟩

/-! ### Claim C9: section fan-out of the unit-group seeder -/

/-- C9, counterexample.  A valid unit group with one nested section whose
own upsert returns null: the processing function returns `error` and
issues zero section upserts (and logs nothing per section), so the K = 1
sections are neither upserted nor individually logged even though the
record was processed. -/
theorem sectionFanout_refuted :
    (seedNocUnitGroupProcessor (fun _ => none) (fun _ _ => some ())
        ⟨some "1", some "occ", some [⟨"Duties", none⟩]⟩).2.length = 0 ∧
      ((⟨some "1", some "occ", some [⟨"Duties", none⟩]⟩ :
          UnitGroupSrc).sections.getD []).length = 1 ∧
      (seedNocUnitGroupProcessor (fun _ => none) (fun _ _ => some ())
        ⟨some "1", some "occ", some [⟨"Duties", none⟩]⟩).1 = .error := by
  refine ⟨?_, rfl, ?_⟩ <;> decide

/-- C9, amended.  Whenever a unit group passes validation and its own
upsert succeeds, the processing function issues one section upsert per
nested section — all K of them, each wrapped in the safe operation that
logs individual failures — and returns `created`.  The fan-out depends
only on the record (the processing function takes no skip offset), so it
is independent of the unit-group seeder's skip offset; but when the record
is invalid or its own upsert fails, no section is attempted. -/
theorem sectionFanout (ugUpsert : String → Option Unit)
    (sectionUpsert : String → NocSectionSrc → Option Unit) (ug : UnitGroupSrc)
    (h1 : falsyStr ug.noc_number = false) (h2 : falsyStr ug.occupation = false)
    (h3 : ugUpsert (ug.noc_number.getD "") = some ()) :
    (seedNocUnitGroupProcessor ugUpsert sectionUpsert ug).1 = .created ∧
      (seedNocUnitGroupProcessor ugUpsert sectionUpsert ug).2 =
        (ug.sections.getD []).map (fun s => (ug.noc_number.getD "", s.title)) := by
  simp [seedNocUnitGroupProcessor, h1, h2, h3]

/-- Witness for the amended C9: a unit group with two sections issues both
section upserts and returns `created`, even with every section upsert
failing (returning null). -/
theorem sectionFanout_witness :
    (seedNocUnitGroupProcessor (fun _ => some ()) (fun _ _ => none)
        ⟨some "21234", some "Engineers",
         some [⟨"Main duties", none⟩, ⟨"Requirements", none⟩]⟩).1 = .created ∧
      (seedNocUnitGroupProcessor (fun _ => some ()) (fun _ _ => none)
        ⟨some "21234", some "Engineers",
         some [⟨"Main duties", none⟩, ⟨"Requirements", none⟩]⟩).2 =
        [("21234", "Main duties"), ("21234", "Requirements")] := by
  have h := sectionFanout (fun _ => some ()) (fun _ _ => none)
    ⟨some "21234", some "Engineers",
     some [⟨"Main duties", none⟩, ⟨"Requirements", none⟩]⟩
    (by decide) (by decide) rfl
  exact ⟨h.1, h.2.trans (by decide)⟩

/-! ### Claim C10: credential-kind normalization -/

/-- C10.  Credential normalization is case-insensitive (the switch matches
on the lowercased string, so two spellings with the same lowercase map
alike); a missing credential maps to Certificate; any string whose
lowercase is none of certificate/diploma/degree maps to Certificate; and a
record whose ProgramArea resolves is never `skipped` whatever its
credential — the payload carries `mapCredential` of the raw field and the
processor returns `created` or `error` only. -/
theorem credentialNormalization :
    (∀ s t : String, lowerString s = lowerString t →
      mapCredential (some s) = mapCredential (some t)) ∧
      mapCredential none = .Certificate ∧
      (∀ s : String, lowerString s ≠ "certificate" → lowerString s ≠ "diploma" →
        lowerString s ≠ "degree" → mapCredential (some s) = .Certificate) ∧
      (∀ (findArea : Option Nat → Except Unit (Option Nat))
        (upsert : ProgramPayload → Option Unit) (p : ViuProgram) (areaId : Nat),
        findArea p.program_area = .ok (some areaId) →
        seedProgramsProcessor findArea upsert p ≠ .ok .skipped ∧
        (programPayload p areaId).credential = mapCredential p.credential) := by
  refine ⟨?_, rfl, ?_, ?_⟩
  · intro s t h
    simp [mapCredential, h]
  · intro s h1 h2 h3
    simp [mapCredential, h1, h2, h3]
  · intro findArea upsert p areaId h
    refine ⟨?_, rfl⟩
    cases hu : upsert (programPayload p areaId) <;>
      simp [seedProgramsProcessor, h, hu]

/-- Witness for C10: `DEGREE` and `degree` normalize alike, `PhD` and a
missing credential both fall back to Certificate. -/
theorem credentialNormalization_witness :
    mapCredential (some "DEGREE") = mapCredential (some "degree") ∧
      mapCredential (some "PhD") = Credential.Certificate ∧
      mapCredential none = Credential.Certificate := by
  have h := credentialNormalization
  exact ⟨h.1 "DEGREE" "degree" (by decide),
    h.2.2.1 "PhD" (by decide) (by decide) (by decide), h.2.1⟩

end NocSeed
